import Mathlib

/-!
# ThreadRunner: a verified shallow embedding

This file embeds the fixed-size thread-pool implementation of the
ThreadRunner repository (`src/execs.rs`, `src/exec_service.rs`,
`src/execs/executor.rs`) and proves properties of the embedding.

The repository contains three near-identical pool variants:
`FixedThreadPool` (execs.rs), `ExecuterService` (exec_service.rs) and
`ThreadPool` (execs/executor.rs).  All three share the same structure:
an unbounded `std::sync::mpsc` channel of `Msg` values, a vector of
worker threads, `execute` sending `Msg::Task`, and a consuming `join`
that sends one `Msg::Terminate` per worker and then joins every worker
thread.  The first two variants share the `Receiver` among workers as
`Arc<Mutex<Receiver<Msg>>>`; each worker loop runs
`let msg = receiver.lock().recv().unwrap();` followed by a `match` that
breaks on `Terminate` and runs the job on `Task`.

The core model (`Sys`) is a small-step interleaving semantics of this
worker pool.  Because every dequeue happens while the `parking_lot`
mutex is held, a dequeue is a single atomic transition of the system;
task execution happens outside the lock and is a separate transition.
A schedule is a list of worker indices; each scheduled worker performs
whichever step its local state enables.
-/

/-- Type `Msg` from execs.rs / exec_service.rs / executor.rs: the messages
carried by the mpsc channel.  A `Job` (the boxed closure) is opaque to
the pool; we identify a task by a natural number and record executions
in a log. -/
inductive Msg where
  | terminate : Msg
  | task : Nat → Msg
deriving DecidableEq, Repr

/-- The local state of one worker thread's loop in `Worker::new`
(execs.rs lines 123-133, exec_service.rs lines 118-128):
`idle` = about to run `receiver.lock().recv().unwrap()`;
`working m` = has dequeued `m`, the mutex guard is dropped, and the
worker is about to `match` on it; `stopped` = the loop was broken by
`Msg::Terminate` and the thread finished. -/
inductive WorkerLocal where
  | idle : WorkerLocal
  | working : Msg → WorkerLocal
  | stopped : WorkerLocal
deriving DecidableEq, Repr

/-- Global state of one pool: the channel's pending-message queue
(FIFO: `send` appends at the back, `recv` removes the front), the local
state of each worker thread, a log of executed task ids in execution
order, a ghost trace of the messages in dequeue order, and each
worker thread's park token (written only by `unpark`, i.e. by
`terminate`, and observed by no pool operation). -/
structure Sys where
  queue : List Msg
  workers : List WorkerLocal
  log : List Nat
  dequeued : List Msg
  parkTokens : List Bool
deriving DecidableEq, Repr

/-- State after `FixedThreadPool::new` / `ExecuterService::new` passes the size
assertion: a fresh channel and `n` workers, each starting its loop. -/
def initSys (n : Nat) : Sys :=
  { queue := [], workers := List.replicate n WorkerLocal.idle,
    log := [], dequeued := [], parkTokens := List.replicate n false }

/-- Operation `execute`: `self.sender.send(Msg::Task(Box::new(f))).unwrap()` —
appends one `Msg::Task` at the back of the channel. -/
def Sys.execute (s : Sys) (id : Nat) : Sys :=
  { s with queue := s.queue ++ [Msg.task id] }

/-- Submitting a list of tasks in order from a single thread. -/
def submitAll (s : Sys) (tasks : List Nat) : Sys :=
  tasks.foldl Sys.execute s

/-- The first loop of `join` (execs.rs lines 91-93):
`for _ in 0..self.workers.len() { self.sender.send(Msg::Terminate).unwrap(); }`
modelled one send at a time. -/
def sendLoop (s : Sys) : Nat → Sys
  | 0 => s
  | k + 1 => sendLoop { s with queue := s.queue ++ [Msg.terminate] } k

/-- All sends performed by `join` before it starts joining threads. -/
def Sys.sendTerminates (s : Sys) : Sys :=
  sendLoop s s.workers.length

/-- The state in which `join`'s second loop starts waiting, for a pool
of size `n` on which `tasks` were submitted in order before `join`. -/
def shutdownStart (n : Nat) (tasks : List Nat) : Sys :=
  (submitAll (initSys n) tasks).sendTerminates

/-- Predicate for when `join`'s second loop returns exactly when every worker thread has
finished; a worker's loop ends (normally) only via `Msg::Terminate`. -/
def Sys.joinDone (s : Sys) : Prop :=
  ∀ w ∈ s.workers, w = WorkerLocal.stopped

/-- One transition of worker `i`:
* `idle` with a nonempty queue: the atomic dequeue
  `receiver.lock().recv().unwrap()` (atomic because the mutex is held
  for exactly this step); the worker moves to `working m`.
* `idle` with an empty queue: `recv` blocks — no step is enabled.
* `working Msg.terminate`: the `Msg::Terminate => break` arm — the loop
  ends and the thread finishes.
* `working (Msg.task id)`: the `Msg::Task(job) => job()` arm, run
  outside the lock — the execution is logged and the worker loops.
* `stopped`: the thread is gone — no step. -/
def Sys.step (s : Sys) (i : Nat) : Option Sys :=
  match s.workers[i]?, s.queue with
  | some WorkerLocal.idle, [] => none
  | some WorkerLocal.idle, m :: rest =>
    some { s with queue := rest
                , workers := s.workers.set i (WorkerLocal.working m)
                , dequeued := s.dequeued ++ [m] }
  | some (WorkerLocal.working Msg.terminate), _ =>
    some { s with workers := s.workers.set i WorkerLocal.stopped }
  | some (WorkerLocal.working (Msg.task id)), _ =>
    some { s with workers := s.workers.set i WorkerLocal.idle
                , log := s.log ++ [id] }
  | some WorkerLocal.stopped, _ => none
  | none, _ => none

/-- Run a schedule (a list of worker indices); `none` means the
schedule asked a worker for a step it cannot take. -/
def Sys.run (s : Sys) : List Nat → Option Sys
  | [] => some s
  | i :: sched =>
    match s.step i with
    | none => none
    | some s' => s'.run sched

/-- Operation `terminate` (execs.rs lines 100-105, executor.rs lines 102-107):
`for worker in self.workers.iter() { worker.thread.thread().unpark(); }`
— `unpark` only sets each worker thread's park token. -/
def Sys.terminate (s : Sys) : Sys :=
  { s with parkTokens := s.parkTokens.map (fun _ => true) }

/-- The pool state observable by pool operations: everything except the
park tokens (a blocked `recv` absorbs a spurious unpark and blocks
again; no pool operation reads the token). -/
def Sys.obs (s : Sys) : List Msg × List WorkerLocal × List Nat × List Msg :=
  (s.queue, s.workers, s.log, s.dequeued)

/-! ## The exactly-once invariant -/

/-- Invariant of the draining phase: the pool has `n` workers; for each
task id, its occurrences are split between the queue, the workers that
dequeued it and are executing it, and the execution log, totalling its
submission count; the `n` shutdown sentinels are split between the
queue, workers acting on one, and workers already stopped; the queue is
always task messages followed by sentinels (no sentinel is dequeued
while a task message is still queued); and the dequeue trace plus the
remaining queue is the original submission sequence (FIFO). -/
def PoolInv (n : Nat) (tasks : List Nat) (s : Sys) : Prop :=
  s.workers.length = n
  ∧ (∀ id, s.queue.count (Msg.task id)
       + s.workers.count (WorkerLocal.working (Msg.task id))
       + s.log.count id = tasks.count id)
  ∧ (s.queue.count Msg.terminate
       + s.workers.count (WorkerLocal.working Msg.terminate)
       + s.workers.count WorkerLocal.stopped = n)
  ∧ (∃ ts m, s.queue = ts.map Msg.task ++ List.replicate m Msg.terminate
        ∧ (ts = [] ∨ m = n))
  ∧ s.dequeued ++ s.queue = tasks.map Msg.task ++ List.replicate n Msg.terminate

/-! ## Single-worker ordering -/

/-- Ids of tasks dequeued by some worker and currently being executed. -/
def workingIds (ws : List WorkerLocal) : List Nat :=
  ws.filterMap fun w =>
    match w with
    | WorkerLocal.working (Msg.task id) => some id
    | _ => none

/-- Ids of the task messages still in the channel, in queue order. -/
def queuedIds (q : List Msg) : List Nat :=
  q.filterMap fun m =>
    match m with
    | Msg.task id => some id
    | _ => none

/-- Order invariant for a pool of size 1: the executed ids, the id in
the single worker's hand, and the queued ids concatenate to the
original submission order. -/
def OrdInv (tasks : List Nat) (s : Sys) : Prop :=
  s.log ++ workingIds s.workers ++ queuedIds s.queue = tasks

/-- Constructor `FixedThreadPool::new` (execs.rs lines 47-56; `ExecuterService::new`
and `ThreadPool::new` are identical in this respect):
`assert_ne!(size, 0, ..)` is the first statement, so size 0 panics
(modelled as `none`) before the channel is created and before any
worker thread is spawned; otherwise the channel is created and `size`
workers are spawned sharing the receiver. -/
def FixedThreadPool.new (size : Nat) : Option Sys :=
  if size = 0 then none else some (initSys size)

/-! ## The lock span of the worker loop body -/

/-- One action of the worker loop body, in program order, from
`Worker::new` in execs.rs (lines 125-131) and exec_service.rs
(lines 120-126). -/
inductive BodyStep where
  | lockAcquire : BodyStep
  | recvMsg : BodyStep
  | lockRelease : BodyStep
  | runTask : BodyStep
  | breakLoop : BodyStep
deriving DecidableEq, Repr

/-- The body `let msg = receiver.lock().recv().unwrap(); match msg ...`
in an iteration that dequeues `Msg::Task(job)`: `lock()` acquires the
mutex; `recv()` runs while the guard is alive; the guard is a temporary
of the `let` statement and is dropped at its end (Rust
temporary-lifetime rule), releasing the mutex; only then does the
match arm run `job()`. -/
def workerLoopBodyTask : List BodyStep :=
  [BodyStep.lockAcquire, BodyStep.recvMsg, BodyStep.lockRelease,
   BodyStep.runTask]

/-- The same body in an iteration that dequeues `Msg::Terminate`: the
match arm breaks the loop. -/
def workerLoopBodyShutdown : List BodyStep :=
  [BodyStep.lockAcquire, BodyStep.recvMsg, BodyStep.lockRelease,
   BodyStep.breakLoop]

/-- The mutex is held before executing action `i` iff strictly more
acquisitions than releases precede it. -/
def lockHeldBefore (body : List BodyStep) (i : Nat) : Bool :=
  decide ((body.take i).count BodyStep.lockRelease
    < (body.take i).count BodyStep.lockAcquire)

/-! ## Receiver sharing across the three pool variants -/

/-- The three pool implementations in the repository. -/
inductive PoolVariant where
  | fixedThreadPool : PoolVariant
  | executerService : PoolVariant
  | threadPool : PoolVariant
deriving DecidableEq, Repr

/-- How a variant shares the channel's single `Receiver` among its
workers: `arcMutex` is `Arc<Mutex<Receiver<Msg>>>` with every retrieve
going through `receiver.lock()`; `redexArc` is `Redex<Receiver<Msg>>`
(executor.rs lines 148-177), a plain `Arc<T>` carrying
`unsafe impl Send`/`Sync` and `Deref`, with workers calling
`receiver.recv()` directly on the shared reference. -/
inductive ReceiverSharing where
  | arcMutex : ReceiverSharing
  | redexArc : ReceiverSharing
deriving DecidableEq, Repr

/-- From the source: execs.rs line 51 and exec_service.rs line 48 wrap
the receiver as `Arc::new(Mutex::new(receiver))`; executor.rs line 53
wraps it as `Redex::new(receiver)`. -/
def receiverSharing : PoolVariant → ReceiverSharing
  | PoolVariant.fixedThreadPool => ReceiverSharing.arcMutex
  | PoolVariant.executerService => ReceiverSharing.arcMutex
  | PoolVariant.threadPool => ReceiverSharing.redexArc

/-- Whether the sharing mechanism puts a mutual-exclusion primitive
around the retrieve step: `Mutex::lock` does; dereferencing a plain
`Arc` performs no synchronization of the shared `Receiver` (the
`unsafe impl Sync for Redex<T>` merely asserts, without proof, that
this is safe). -/
def providesMutualExclusion : ReceiverSharing → Bool
  | ReceiverSharing.arcMutex => true
  | ReceiverSharing.redexArc => false

/-! ## The join loop over worker-thread outcomes -/

/-- How one worker thread ended, as seen by `JoinHandle::join`:
`finished` = the loop broke on `Msg::Terminate` and the thread ran to
completion (`join()` returns `Ok`); `panicked` = a task panicked and
the thread unwound (`join()` returns `Err`). -/
inductive JoinOutcome where
  | finished : JoinOutcome
  | panicked : JoinOutcome
deriving DecidableEq, Repr

/-- The second loop of `join` (execs.rs lines 95-97, exec_service.rs
lines 96-98, executor.rs lines 97-99):
`for Worker { thread } in self.workers { thread.join().unwrap() }`.
`unwrap` on an `Err` panics the calling thread, modelled as
`Except.error ()`: `join` itself panics, produces no report, and the
remaining handles are not joined before the unwinding. -/
def joinLoop : List JoinOutcome → Except Unit Unit
  | [] => Except.ok ()
  | JoinOutcome.finished :: rest => joinLoop rest
  | JoinOutcome.panicked :: _ => Except.error ()

/-! ## The worker loop over raw recv results -/

/-- How a worker's loop ends when driven by a finite list of results of
`receiver.lock().recv()`. -/
inductive WorkerExit where
  | finishedNormally : WorkerExit
  | endedAbnormally : WorkerExit
  | stillLooping : WorkerExit
deriving DecidableEq, Repr

/-- The worker loop of `Worker::new` as a function of the successive
results of `recv()` (`Except.error` = `Err(RecvError)`, the channel
empty with all senders dropped).  The loop applies `.unwrap()` to each
result: an `Err` is never handled — `unwrap` panics and the worker
thread ends abnormally right there.  `Ok(Msg::Terminate)` breaks the
loop normally; `Ok(Msg::Task(job))` runs the job (its id is collected,
in order) and loops.  If the list is exhausted the worker is still in
its loop, blocked in `recv()`. -/
def runWorkerLoop : List (Except Unit Msg) → List Nat × WorkerExit
  | [] => ([], WorkerExit.stillLooping)
  | Except.error _ :: _ => ([], WorkerExit.endedAbnormally)
  | Except.ok Msg.terminate :: _ => ([], WorkerExit.finishedNormally)
  | Except.ok (Msg.task id) :: rest =>
    let r := runWorkerLoop rest
    (id :: r.1, r.2)

/-! ## Channel liveness when tasks can panic -/

/-- Messages for the model in which a task body may panic during
execution (the boxed closure's behaviour, opaque to the pool, is
summarized by the flag). -/
inductive PMsg where
  | terminate : PMsg
  | task : Nat → Bool → PMsg
deriving DecidableEq, Repr

/-- Worker-thread state including the two ways a thread can end: a
clean break on the sentinel, or unwinding because the executed task
panicked (spec 4.2: the worker thread ends early and is not
respawned). -/
inductive PWorker where
  | idle : PWorker
  | working : PMsg → PWorker
  | stoppedNormal : PWorker
  | stoppedPanicked : PWorker
deriving DecidableEq, Repr

def PWorker.threadEnded : PWorker → Bool
  | PWorker.stoppedNormal => true
  | PWorker.stoppedPanicked => true
  | _ => false

structure PSys where
  queue : List PMsg
  workers : List PWorker
  log : List Nat
deriving DecidableEq, Repr

/-- Each worker thread owns one clone of the `Arc` that holds the
`Receiver` (`new`'s own handle is dropped when `new` returns), and a
thread drops its clone when it ends — normally or by unwinding.  The
`Receiver` is therefore dropped exactly when every worker thread has
ended. -/
def PSys.receiverAlive (s : PSys) : Bool :=
  s.workers.any fun w => ! w.threadEnded

/-- Model of `Sender::send` on the unbounded mpsc channel: it never blocks, and
it returns `Err(SendError)` precisely when the `Receiver` has been
dropped. -/
def PSys.send (s : PSys) (m : PMsg) : Except Unit PSys :=
  if s.receiverAlive then Except.ok { s with queue := s.queue ++ [m] }
  else Except.error ()

/-- Operation `execute`: `self.sender.send(Msg::Task(Box::new(f))).unwrap()` —
an `Err` from `send` makes the `unwrap` panic in the submitting
caller. -/
def PSys.execute (s : PSys) (id : Nat) (pan : Bool) : Except Unit PSys :=
  s.send (PMsg.task id pan)

/-- Worker transitions as in `Sys.step`, except that executing a task
whose body panics ends the worker's thread abnormally. -/
def PSys.step (s : PSys) (i : Nat) : Option PSys :=
  match s.workers[i]?, s.queue with
  | some PWorker.idle, [] => none
  | some PWorker.idle, m :: rest =>
    some { s with queue := rest, workers := s.workers.set i (PWorker.working m) }
  | some (PWorker.working PMsg.terminate), _ =>
    some { s with workers := s.workers.set i PWorker.stoppedNormal }
  | some (PWorker.working (PMsg.task id pan)), _ =>
    if pan then some { s with workers := s.workers.set i PWorker.stoppedPanicked }
    else some { s with workers := s.workers.set i PWorker.idle
                     , log := s.log ++ [id] }
  | some PWorker.stoppedNormal, _ => none
  | some PWorker.stoppedPanicked, _ => none
  | none, _ => none

/-! ## Theorems -/

/-! ## Counting helpers -/

theorem count_set_add {α : Type} [DecidableEq α] :
    ∀ (l : List α) (i : Nat) (a b c : α), l[i]? = some a →
      (l.set i b).count c + (if a = c then 1 else 0)
        = l.count c + (if b = c then 1 else 0) := by
  intro l
  induction l with
  | nil => intro i a b c h; simp at h
  | cons x xs ih =>
    intro i a b c h
    cases i with
    | zero =>
      simp only [List.getElem?_cons_zero, Option.some.injEq] at h
      subst h
      simp only [List.set, List.count_cons, beq_iff_eq]
      split_ifs <;> omega
    | succ j =>
      simp only [List.getElem?_cons_succ] at h
      simp only [List.set, List.count_cons, beq_iff_eq]
      have := ih j a b c h
      split_ifs at * <;> omega

/-! ## Field computations for construction, submission and the
terminate-send loop -/

theorem submitAll_queue : ∀ (tasks : List Nat) (s : Sys),
    (submitAll s tasks).queue = s.queue ++ tasks.map Msg.task := by
  intro tasks
  induction tasks with
  | nil => intro s; simp [submitAll]
  | cons t ts ih =>
    intro s
    simp only [submitAll, List.foldl_cons, List.map_cons] at *
    rw [ih]
    simp [Sys.execute]

theorem submitAll_rest : ∀ (tasks : List Nat) (s : Sys),
    (submitAll s tasks).workers = s.workers
    ∧ (submitAll s tasks).log = s.log
    ∧ (submitAll s tasks).dequeued = s.dequeued
    ∧ (submitAll s tasks).parkTokens = s.parkTokens := by
  intro tasks
  induction tasks with
  | nil => intro s; simp [submitAll]
  | cons t ts ih =>
    intro s
    simp only [submitAll, List.foldl_cons] at *
    exact ih (s.execute t)

theorem sendLoop_queue : ∀ (k : Nat) (s : Sys),
    (sendLoop s k).queue = s.queue ++ List.replicate k Msg.terminate := by
  intro k
  induction k with
  | zero => intro s; simp [sendLoop]
  | succ j ih =>
    intro s
    simp only [sendLoop]
    rw [ih]
    simp [List.replicate_succ]

theorem sendLoop_rest : ∀ (k : Nat) (s : Sys),
    (sendLoop s k).workers = s.workers
    ∧ (sendLoop s k).log = s.log
    ∧ (sendLoop s k).dequeued = s.dequeued
    ∧ (sendLoop s k).parkTokens = s.parkTokens := by
  intro k
  induction k with
  | zero => intro s; simp [sendLoop]
  | succ j ih =>
    intro s
    simp only [sendLoop]
    exact ih _

theorem shutdownStart_fields (n : Nat) (tasks : List Nat) :
    (shutdownStart n tasks).queue
      = tasks.map Msg.task ++ List.replicate n Msg.terminate
    ∧ (shutdownStart n tasks).workers = List.replicate n WorkerLocal.idle
    ∧ (shutdownStart n tasks).log = []
    ∧ (shutdownStart n tasks).dequeued = [] := by
  have h1 := submitAll_queue tasks (initSys n)
  have h2 := submitAll_rest tasks (initSys n)
  have h3 := sendLoop_queue (submitAll (initSys n) tasks).workers.length
    (submitAll (initSys n) tasks)
  have h4 := sendLoop_rest (submitAll (initSys n) tasks).workers.length
    (submitAll (initSys n) tasks)
  have hw : (submitAll (initSys n) tasks).workers
      = List.replicate n WorkerLocal.idle := by
    rw [h2.1]; rfl
  have hlen : (submitAll (initSys n) tasks).workers.length = n := by
    rw [hw]; simp
  simp only [shutdownStart, Sys.sendTerminates]
  refine ⟨?_, ?_, ?_, ?_⟩
  · rw [h3, h1, hlen]
    simp [initSys]
  · rw [h4.1, hw]
  · rw [h4.2.1, h2.2.1]; rfl
  · rw [h4.2.2.1, h2.2.2.1]; rfl

theorem count_map_task (tasks : List Nat) (id : Nat) :
    (tasks.map Msg.task).count (Msg.task id) = tasks.count id := by
  induction tasks with
  | nil => simp
  | cons t ts ih => simp [List.count_cons, ih]

theorem count_map_task_terminate (tasks : List Nat) :
    (tasks.map Msg.task).count Msg.terminate = 0 := by
  rw [List.count_eq_zero]
  simp

theorem PoolInv_init (n : Nat) (tasks : List Nat) :
    PoolInv n tasks (shutdownStart n tasks) := by
  obtain ⟨hq, hw, hl, hd⟩ := shutdownStart_fields n tasks
  refine ⟨by rw [hw]; simp, ?_, ?_, ⟨tasks, n, hq, Or.inr rfl⟩, by rw [hd, hq]; simp⟩
  · intro id
    rw [hq, hw, hl]
    simp [List.count_append, List.count_replicate, List.count_replicate, count_map_task]
  · rw [hq, hw]
    simp [List.count_append, List.count_replicate, count_map_task_terminate]

set_option maxHeartbeats 1000000 in
theorem PoolInv_step {n : Nat} {tasks : List Nat} {s s' : Sys} {i : Nat}
    (h : PoolInv n tasks s) (hs : s.step i = some s') : PoolInv n tasks s' := by
  obtain ⟨hlen, htask, hterm, ⟨ts, m, hq, hts⟩, hfifo⟩ := h
  unfold Sys.step at hs
  split at hs
  · exact absurd hs (by simp)
  case _ msg rest hw hqe =>
    -- dequeue step: worker i was idle, it atomically takes the head message
    simp only [Option.some.injEq] at hs
    subst hs
    cases ts with
    | nil =>
      -- all task messages already dequeued: the head is a sentinel
      simp only [List.map_nil, List.nil_append] at hq
      rw [hq] at hqe
      cases m with
      | zero => simp at hqe
      | succ m' =>
        rw [List.replicate_succ] at hqe
        injection hqe with hmsg hrest
        subst hmsg
        refine ⟨by simp [hlen], ?_, ?_, ⟨[], m', by simp [hrest], Or.inl rfl⟩, ?_⟩
        · intro id
          have hset := count_set_add s.workers i WorkerLocal.idle
            (WorkerLocal.working Msg.terminate)
            (WorkerLocal.working (Msg.task id)) hw
          have ht := htask id
          rw [hq] at ht
          rw [← hrest]
          simp [List.count_cons, List.count_append, List.count_replicate, List.count_singleton'] at ht hset ⊢
          omega
        · have hset := count_set_add s.workers i WorkerLocal.idle
            (WorkerLocal.working Msg.terminate)
            (WorkerLocal.working Msg.terminate) hw
          have hset2 := count_set_add s.workers i WorkerLocal.idle
            (WorkerLocal.working Msg.terminate)
            WorkerLocal.stopped hw
          rw [hq] at hterm
          rw [← hrest]
          simp [List.count_cons, List.count_append, List.count_replicate, List.count_singleton'] at hterm hset hset2 ⊢
          omega
        · show (s.dequeued ++ [Msg.terminate]) ++ rest = _
          rw [List.append_assoc, List.singleton_append, ← hrest,
            ← List.replicate_succ, ← hq]
          exact hfifo
    | cons t ts' =>
      -- a task message is still at the head
      simp only [List.map_cons, List.cons_append] at hq
      rw [hq] at hqe
      injection hqe with hmsg hrest
      subst hmsg
      have hm : m = n := by
        rcases hts with h | h
        · exact absurd h (by simp)
        · exact h
      refine ⟨by simp [hlen], ?_, ?_, ⟨ts', m, by simp [hrest], Or.inr hm⟩, ?_⟩
      · intro id
        have hset := count_set_add s.workers i WorkerLocal.idle
          (WorkerLocal.working (Msg.task t))
          (WorkerLocal.working (Msg.task id)) hw
        have ht := htask id
        rw [hq] at ht
        rw [← hrest]
        by_cases hcase : t = id <;>
          simp [hcase, List.count_cons, List.count_append, List.count_replicate, List.count_singleton'] at ht hset ⊢ <;> omega
      · have hset := count_set_add s.workers i WorkerLocal.idle
          (WorkerLocal.working (Msg.task t))
          (WorkerLocal.working Msg.terminate) hw
        have hset2 := count_set_add s.workers i WorkerLocal.idle
          (WorkerLocal.working (Msg.task t))
          WorkerLocal.stopped hw
        rw [hq] at hterm
        rw [← hrest]
        simp [List.count_cons, List.count_append, List.count_replicate, List.count_singleton'] at hterm hset hset2 ⊢
        omega
      · show (s.dequeued ++ [Msg.task t]) ++ rest = _
        rw [List.append_assoc, List.singleton_append, ← hrest, ← hq]
        exact hfifo
  case _ hw =>
    -- a worker holding a sentinel breaks its loop and its thread ends
    simp only [Option.some.injEq] at hs
    subst hs
    refine ⟨by simp [hlen], ?_, ?_, ⟨ts, m, hq, hts⟩, hfifo⟩
    · intro id
      have hset := count_set_add s.workers i (WorkerLocal.working Msg.terminate)
        WorkerLocal.stopped (WorkerLocal.working (Msg.task id)) hw
      have ht := htask id
      simp at hset ⊢
      omega
    · have hset := count_set_add s.workers i (WorkerLocal.working Msg.terminate)
        WorkerLocal.stopped (WorkerLocal.working Msg.terminate) hw
      have hset2 := count_set_add s.workers i (WorkerLocal.working Msg.terminate)
        WorkerLocal.stopped WorkerLocal.stopped hw
      simp at hset hset2 ⊢
      omega
  case _ id0 hw =>
    -- a worker executes a task body outside the lock and loops
    simp only [Option.some.injEq] at hs
    subst hs
    refine ⟨by simp [hlen], ?_, ?_, ⟨ts, m, hq, hts⟩, hfifo⟩
    · intro id
      have hset := count_set_add s.workers i (WorkerLocal.working (Msg.task id0))
        WorkerLocal.idle (WorkerLocal.working (Msg.task id)) hw
      have ht := htask id
      by_cases hcase : id0 = id <;>
        simp [hcase, List.count_cons, List.count_append, List.count_replicate, List.count_singleton'] at hset ⊢ <;> omega
    · have hset := count_set_add s.workers i (WorkerLocal.working (Msg.task id0))
        WorkerLocal.idle (WorkerLocal.working Msg.terminate) hw
      have hset2 := count_set_add s.workers i (WorkerLocal.working (Msg.task id0))
        WorkerLocal.idle WorkerLocal.stopped hw
      simp at hset hset2 ⊢
      omega
  · exact absurd hs (by simp)
  · exact absurd hs (by simp)

theorem PoolInv_run {n : Nat} {tasks : List Nat} :
    ∀ (sched : List Nat) (s s' : Sys),
      PoolInv n tasks s → s.run sched = some s' → PoolInv n tasks s' := by
  intro sched
  induction sched with
  | nil =>
    intro s s' h hr
    simp only [Sys.run, Option.some.injEq] at hr
    rwa [← hr]
  | cons i rest ih =>
    intro s s' h hr
    unfold Sys.run at hr
    cases hst : s.step i with
    | none => rw [hst] at hr; simp at hr
    | some s1 =>
      rw [hst] at hr
      exact ih s1 s' (PoolInv_step h hst) hr

theorem PoolInv_final {n : Nat} {tasks : List Nat} {s : Sys}
    (hn : 0 < n) (h : PoolInv n tasks s) (hdone : s.joinDone) :
    s.queue = [] ∧ (∀ id, s.log.count id = tasks.count id)
      ∧ s.dequeued = tasks.map Msg.task ++ List.replicate n Msg.terminate := by
  obtain ⟨hlen, htask, hterm, ⟨ts, m, hq, hts⟩, hfifo⟩ := h
  have hstop : s.workers.count WorkerLocal.stopped = n := by
    rw [← hlen, List.count_eq_length]
    intro b hb
    exact (hdone b hb).symm
  have hwt : s.workers.count (WorkerLocal.working Msg.terminate) = 0 := by
    rw [List.count_eq_zero]
    intro hmem
    exact absurd (hdone _ hmem) (by simp)
  have hqt : s.queue.count Msg.terminate = 0 := by omega
  have hm0 : m = 0 := by
    rw [hq] at hqt
    simp [List.count_append, List.count_replicate, count_map_task_terminate] at hqt
    exact hqt
  have hts0 : ts = [] := by
    rcases hts with h | h
    · exact h
    · omega
  have hqe : s.queue = [] := by rw [hq, hm0, hts0]; simp
  refine ⟨hqe, ?_, ?_⟩
  · intro id
    have hwk : s.workers.count (WorkerLocal.working (Msg.task id)) = 0 := by
      rw [List.count_eq_zero]
      intro hmem
      exact absurd (hdone _ hmem) (by simp)
    have ht := htask id
    rw [hqe] at ht
    simp at ht
    omega
  · rw [hqe] at hfifo
    simpa using hfifo

theorem queuedIds_map_task (tasks : List Nat) :
    queuedIds (tasks.map Msg.task) = tasks := by
  induction tasks with
  | nil => rfl
  | cons t ts ih => simp [queuedIds, List.filterMap_cons] at ih ⊢; exact ih

theorem queuedIds_replicate_term (m : Nat) :
    queuedIds (List.replicate m Msg.terminate) = [] := by
  induction m with
  | zero => rfl
  | succ k ih =>
    simp only [List.replicate_succ, queuedIds, List.filterMap_cons] at ih ⊢
    exact ih

theorem OrdInv_step {tasks : List Nat} {s s' : Sys} {i : Nat}
    (hlen : s.workers.length = 1)
    (h : OrdInv tasks s) (hs : s.step i = some s') :
    s'.workers.length = 1 ∧ OrdInv tasks s' := by
  obtain ⟨w, hw⟩ := List.length_eq_one.mp hlen
  unfold Sys.step at hs
  split at hs
  · exact absurd hs (by simp)
  case _ msg rest hweq hqe =>
    have hi : i = 0 ∧ w = WorkerLocal.idle := by
      rw [hw] at hweq
      cases i with
      | zero => simp at hweq; exact ⟨rfl, hweq⟩
      | succ j => simp at hweq
    obtain ⟨hi0, hwv⟩ := hi
    simp only [Option.some.injEq] at hs
    subst hs
    subst hi0
    constructor
    · simp [hw]
    · unfold OrdInv at h ⊢
      rw [hw, hwv] at h ⊢
      rw [hqe] at h
      cases msg with
      | terminate =>
        simp [workingIds, queuedIds, List.filterMap_cons] at h ⊢
        exact h
      | task id =>
        simp [workingIds, queuedIds, List.filterMap_cons] at h ⊢
        exact h
  case _ hweq =>
    have hi : i = 0 ∧ w = WorkerLocal.working Msg.terminate := by
      rw [hw] at hweq
      cases i with
      | zero => simp at hweq; exact ⟨rfl, hweq⟩
      | succ j => simp at hweq
    obtain ⟨hi0, hwv⟩ := hi
    simp only [Option.some.injEq] at hs
    subst hs
    subst hi0
    constructor
    · simp [hw]
    · unfold OrdInv at h ⊢
      rw [hw, hwv] at h ⊢
      simp [workingIds, List.filterMap_cons] at h ⊢
      exact h
  case _ id0 hweq =>
    have hi : i = 0 ∧ w = WorkerLocal.working (Msg.task id0) := by
      rw [hw] at hweq
      cases i with
      | zero => simp at hweq; exact ⟨rfl, hweq⟩
      | succ j => simp at hweq
    obtain ⟨hi0, hwv⟩ := hi
    simp only [Option.some.injEq] at hs
    subst hs
    subst hi0
    constructor
    · simp [hw]
    · unfold OrdInv at h ⊢
      rw [hw, hwv] at h ⊢
      simp [workingIds, List.filterMap_cons] at h ⊢
      exact h
  · exact absurd hs (by simp)
  · exact absurd hs (by simp)

theorem OrdInv_run {tasks : List Nat} :
    ∀ (sched : List Nat) (s s' : Sys),
      s.workers.length = 1 → OrdInv tasks s → s.run sched = some s' →
      s'.workers.length = 1 ∧ OrdInv tasks s' := by
  intro sched
  induction sched with
  | nil =>
    intro s s' h1 h2 hr
    simp only [Sys.run, Option.some.injEq] at hr
    rw [← hr]
    exact ⟨h1, h2⟩
  | cons i rest ih =>
    intro s s' h1 h2 hr
    unfold Sys.run at hr
    cases hst : s.step i with
    | none => rw [hst] at hr; simp at hr
    | some s1 =>
      rw [hst] at hr
      obtain ⟨h1', h2'⟩ := OrdInv_step h1 h2 hst
      exact ih s1 s' h1' h2' hr

theorem OrdInv_init (tasks : List Nat) : OrdInv tasks (shutdownStart 1 tasks) := by
  obtain ⟨hq, hw, hl, _⟩ := shutdownStart_fields 1 tasks
  unfold OrdInv
  rw [hq, hw, hl]
  simp only [queuedIds, List.filterMap_append] at *
  have h1 := queuedIds_map_task tasks
  have h2 := queuedIds_replicate_term 1
  simp only [queuedIds] at h1 h2
  rw [h1, h2]
  simp [workingIds]

/-- C1: for every set of tasks submitted (appended to the channel)
before `join` is invoked, any interleaving of the worker threads that
reaches the state in which `join` can return (every worker thread
finished) has executed each submitted task exactly once: the count of
each task id in the execution log equals its count in the submission
list (never zero, never two). Since `join` returns only in such a
state, it returns only after every submitted task has finished. -/
theorem shutdown_executes_each_task_exactly_once
    (n : Nat) (tasks : List Nat) (sched : List Nat) (s' : Sys)
    (hn : 0 < n)
    (hrun : (shutdownStart n tasks).run sched = some s')
    (hdone : s'.joinDone) :
    ∀ id : Nat, s'.log.count id = tasks.count id :=
  (PoolInv_final hn (PoolInv_run sched _ s' (PoolInv_init n tasks) hrun) hdone).2.1

theorem shutdown_executes_each_task_exactly_once_witness :
    (Sys.mk [] [WorkerLocal.stopped] [5] [Msg.task 5, Msg.terminate]
      [false]).log.count 5 = ([5] : List Nat).count 5 :=
  shutdown_executes_each_task_exactly_once 1 [5] [0, 0, 0, 0]
    (Sys.mk [] [WorkerLocal.stopped] [5] [Msg.task 5, Msg.terminate] [false])
    (by decide) (by decide) (by simp [Sys.joinDone]) 5

/-- C4: the consuming `join` appends exactly one `Msg::Terminate`
per currently-known worker — `List.replicate n Msg.terminate` for a
pool whose worker vector has length `n` — and nothing else; it then
waits for every worker thread, and in any state in which it can return
(all workers exited) the queue has been fully drained and exactly the
`n` sentinels (together with every prior message) have been consumed.
The Lean model has no `Sys`-consuming affine types; consumption of the
pool by `join(self)` is Rust move semantics, reflected here by `join`
being modelled as a function of the whole final pool state. -/
theorem shutdown_sends_n_sentinels_then_drains
    (n : Nat) (tasks : List Nat) (sched : List Nat) (s' : Sys)
    (hn : 0 < n)
    (hrun : (shutdownStart n tasks).run sched = some s')
    (hdone : s'.joinDone) :
    (submitAll (initSys n) tasks).sendTerminates.queue
        = (submitAll (initSys n) tasks).queue ++ List.replicate n Msg.terminate
      ∧ (submitAll (initSys n) tasks).workers.length = n
      ∧ s'.queue = []
      ∧ s'.dequeued.count Msg.terminate = n := by
  have hinv := PoolInv_run sched _ s' (PoolInv_init n tasks) hrun
  have hfin := PoolInv_final hn hinv hdone
  have hlen : (submitAll (initSys n) tasks).workers.length = n := by
    rw [(submitAll_rest tasks (initSys n)).1]
    simp [initSys]
  refine ⟨?_, hlen, hfin.1, ?_⟩
  · unfold Sys.sendTerminates
    rw [sendLoop_queue, hlen]
  · rw [hfin.2.2]
    simp [List.count_append, List.count_replicate, count_map_task_terminate]

theorem shutdown_sends_n_sentinels_then_drains_witness :
    ((submitAll (initSys 2) [3]).sendTerminates.queue
        = (submitAll (initSys 2) [3]).queue ++ List.replicate 2 Msg.terminate
      ∧ (submitAll (initSys 2) [3]).workers.length = 2
      ∧ (Sys.mk [] [WorkerLocal.stopped, WorkerLocal.stopped] [3]
          [Msg.task 3, Msg.terminate, Msg.terminate] [false, false]).queue = []
      ∧ (Sys.mk [] [WorkerLocal.stopped, WorkerLocal.stopped] [3]
          [Msg.task 3, Msg.terminate, Msg.terminate]
          [false, false]).dequeued.count Msg.terminate = 2) :=
  shutdown_sends_n_sentinels_then_drains 2 [3] [0, 0, 0, 0, 1, 1]
    (Sys.mk [] [WorkerLocal.stopped, WorkerLocal.stopped] [3]
      [Msg.task 3, Msg.terminate, Msg.terminate] [false, false])
    (by decide) (by decide) (by simp [Sys.joinDone])

/-- C5: messages are dequeued in exactly the order they were sent
by the single submitting thread (the dequeue trace concatenated with
the remaining queue is always the original FIFO submission sequence);
and for a pool of size 1, any complete run executes the tasks in
submission order: the log equals the submission list itself, so two
tasks submitted in sequence have their effects observed in submission
order. -/
theorem fifo_order_and_single_worker_sequential
    (n : Nat) (tasks : List Nat) (sched : List Nat) (s' : Sys)
    (hrun : (shutdownStart n tasks).run sched = some s') :
    s'.dequeued ++ s'.queue = tasks.map Msg.task ++ List.replicate n Msg.terminate
    ∧ (n = 1 → s'.joinDone → s'.log = tasks) := by
  have hinv := PoolInv_run sched _ s' (PoolInv_init n tasks) hrun
  refine ⟨hinv.2.2.2.2, ?_⟩
  intro hn1 hdone
  subst hn1
  have hlen1 : (shutdownStart 1 tasks).workers.length = 1 := by
    rw [(shutdownStart_fields 1 tasks).2.1]
    simp
  have hord := OrdInv_run sched _ s' hlen1 (OrdInv_init tasks) hrun
  have hfin := PoolInv_final (by omega) hinv hdone
  have hwork : workingIds s'.workers = [] := by
    unfold workingIds
    rw [List.filterMap_eq_nil_iff]
    intro w hwmem
    rw [hdone w hwmem]
  have hqueue : queuedIds s'.queue = [] := by
    rw [hfin.1]
    rfl
  have h := hord.2
  unfold OrdInv at h
  rw [hwork, hqueue] at h
  simpa using h

theorem fifo_order_and_single_worker_sequential_witness :
    ((Sys.mk [] [WorkerLocal.stopped] [4, 6]
        [Msg.task 4, Msg.task 6, Msg.terminate] [false]).dequeued
      ++ (Sys.mk [] [WorkerLocal.stopped] [4, 6]
        [Msg.task 4, Msg.task 6, Msg.terminate] [false]).queue
      = ([4, 6] : List Nat).map Msg.task ++ List.replicate 1 Msg.terminate)
    ∧ (1 = 1 → (Sys.mk [] [WorkerLocal.stopped] [4, 6]
        [Msg.task 4, Msg.task 6, Msg.terminate] [false]).joinDone →
        (Sys.mk [] [WorkerLocal.stopped] [4, 6]
          [Msg.task 4, Msg.task 6, Msg.terminate] [false]).log = [4, 6]) :=
  fifo_order_and_single_worker_sequential 1 [4, 6] [0, 0, 0, 0, 0, 0]
    (Sys.mk [] [WorkerLocal.stopped] [4, 6]
      [Msg.task 4, Msg.task 6, Msg.terminate] [false])
    (by decide)

/-- C10: `terminate` only calls `unpark()` on each worker thread.
`unpark` writes the thread's park token; a worker blocked inside
`recv()` that is woken spuriously re-checks and blocks again, and no
pool operation reads the token.  So `terminate` appends no message,
removes none, stops no worker, changes no log entry, and `execute`,
the sentinel-send loop of `join`, and every worker step behave on the
terminated pool exactly as on the original (projected through
`Sys.obs`, which drops only the park tokens). -/
theorem terminate_leaves_pool_state_unchanged (s : Sys) :
    s.terminate.obs = s.obs
    ∧ (∀ id, (s.terminate.execute id).obs = (s.execute id).obs)
    ∧ s.terminate.sendTerminates.obs = s.sendTerminates.obs
    ∧ (∀ i, (s.terminate.step i).map Sys.obs = (s.step i).map Sys.obs) := by
  refine ⟨rfl, fun id => rfl, ?_, ?_⟩
  · unfold Sys.sendTerminates
    have h1 := sendLoop_queue s.terminate.workers.length s.terminate
    have h2 := sendLoop_rest s.terminate.workers.length s.terminate
    have h3 := sendLoop_queue s.workers.length s
    have h4 := sendLoop_rest s.workers.length s
    unfold Sys.obs
    rw [h1, h3, h2.1, h2.2.1, h2.2.2.1, h4.1, h4.2.1, h4.2.2.1]
    rfl
  · intro i
    cases hgw : s.workers[i]? with
    | none => simp [Sys.step, Sys.terminate, hgw]
    | some w =>
      cases w with
      | idle =>
        cases hgq : s.queue with
        | nil => simp [Sys.step, Sys.terminate, hgw, hgq]
        | cons m rest => simp [Sys.step, Sys.terminate, Sys.obs, hgw, hgq]
      | working msg =>
        cases msg with
        | terminate => simp [Sys.step, Sys.terminate, Sys.obs, hgw]
        | task id => simp [Sys.step, Sys.terminate, Sys.obs, hgw]
      | stopped => simp [Sys.step, Sys.terminate, hgw]

/-- C6: construction with size 0 always fails before any worker is
spawned and yields no pool; for every positive size it succeeds and
yields a usable pool with exactly `size` workers, all running their
loops, and an empty queue. -/
theorem construction_zero_fails_positive_succeeds :
    FixedThreadPool.new 0 = none
    ∧ ∀ n : Nat, 0 < n →
        FixedThreadPool.new n = some (initSys n)
        ∧ (initSys n).workers.length = n
        ∧ (∀ w ∈ (initSys n).workers, w = WorkerLocal.idle)
        ∧ (initSys n).queue = [] := by
  refine ⟨rfl, ?_⟩
  intro n hn
  refine ⟨?_, by simp [initSys], ?_, rfl⟩
  · simp only [FixedThreadPool.new]
    rw [if_neg (by omega)]
  · intro w hw
    simp [initSys] at hw
    exact hw.2

theorem construction_zero_fails_positive_succeeds_witness :
    0 < 4 ∧ FixedThreadPool.new 4 = some (initSys 4) :=
  ⟨by decide, (construction_zero_fails_positive_succeeds.2 4 (by decide)).1⟩

/-- C7: the dequeue mutex is held exactly for the retrieval: it is
held while `recv()` runs, and it is no longer held when the worker acts
on the dequeued message — neither when it runs a task body nor when it
breaks its loop on the shutdown sentinel. -/
theorem lock_released_before_acting_on_message :
    (∀ i, workerLoopBodyTask[i]? = some BodyStep.runTask →
        lockHeldBefore workerLoopBodyTask i = false)
    ∧ (∀ i, workerLoopBodyShutdown[i]? = some BodyStep.breakLoop →
        lockHeldBefore workerLoopBodyShutdown i = false)
    ∧ (∀ i, workerLoopBodyTask[i]? = some BodyStep.recvMsg →
        lockHeldBefore workerLoopBodyTask i = true) := by
  refine ⟨?_, ?_, ?_⟩ <;> intro i h <;>
    rcases i with _ | _ | _ | _ | j
  · exact absurd h (by decide)
  · exact absurd h (by decide)
  · exact absurd h (by decide)
  · decide
  · exact absurd h (by simp [workerLoopBodyTask])
  · exact absurd h (by decide)
  · exact absurd h (by decide)
  · exact absurd h (by decide)
  · decide
  · exact absurd h (by simp [workerLoopBodyShutdown])
  · exact absurd h (by decide)
  · decide
  · exact absurd h (by decide)
  · exact absurd h (by decide)
  · exact absurd h (by simp [workerLoopBodyTask])

theorem lock_released_before_acting_on_message_witness :
    workerLoopBodyTask[3]? = some BodyStep.runTask
    ∧ lockHeldBefore workerLoopBodyTask 3 = false :=
  ⟨by decide, lock_released_before_acting_on_message.1 3 (by decide)⟩

/-- C2 counterexample: the `ThreadPool` variant shares the dequeue
end with no mutual-exclusion primitive around the retrieve step, so
the claim "in every pool variant the retrieve step is guarded by an
explicit mutual-exclusion primitive, never by unsynchronized shared
access" is false at the concrete variant `PoolVariant.threadPool`. -/
theorem threadPool_variant_lacks_mutual_exclusion :
    providesMutualExclusion (receiverSharing PoolVariant.threadPool) = false := by
  decide

/-- C2 (amended): the `FixedThreadPool` and `ExecuterService`
variants guard the shared dequeue end with an explicit mutex
(`Arc<Mutex<Receiver>>`, retrieval only through `lock()`), so for them
at most one worker can be retrieving at any instant; the `ThreadPool`
variant instead shares the receiver through `Redex` — a plain `Arc`
with unchecked `Send`/`Sync` assertions — providing no mutual
exclusion around the retrieve step. -/
theorem mutual_exclusion_by_variant :
    receiverSharing PoolVariant.fixedThreadPool = ReceiverSharing.arcMutex
    ∧ receiverSharing PoolVariant.executerService = ReceiverSharing.arcMutex
    ∧ providesMutualExclusion ReceiverSharing.arcMutex = true
    ∧ receiverSharing PoolVariant.threadPool = ReceiverSharing.redexArc
    ∧ providesMutualExclusion ReceiverSharing.redexArc = false := by
  decide

/-- C3 counterexample: with a single worker that ended abnormally,
`join` does not return normally with a report — the `unwrap` panics the
caller (an unhandled panic in the thread that called `shutdown`, which
for a main-thread caller aborts the process), and no count or list of
abnormal workers is produced (the loop's type carries no report at
all). -/
theorem join_crashes_on_panicked_worker :
    joinLoop [JoinOutcome.panicked] = Except.error ()
    ∧ joinLoop [JoinOutcome.panicked] ≠ Except.ok () :=
  ⟨rfl, by simp [joinLoop]⟩

/-- C3 (amended): `join` returns normally iff every worker thread
finished cleanly; if any worker ended abnormally, `join` propagates the
panic of the first such worker (in worker order) via `unwrap` and
reports nothing. -/
theorem joinLoop_propagates_first_panic :
    (∀ outs : List JoinOutcome,
        joinLoop outs = Except.ok () ↔ ∀ o ∈ outs, o = JoinOutcome.finished)
    ∧ (∀ pre post : List JoinOutcome,
        (∀ o ∈ pre, o = JoinOutcome.finished) →
        joinLoop (pre ++ JoinOutcome.panicked :: post) = Except.error ()) := by
  constructor
  · intro outs
    induction outs with
    | nil => simp [joinLoop]
    | cons o rest ih =>
      cases o with
      | finished => simpa [joinLoop] using ih
      | panicked => simp [joinLoop]
  · intro pre post
    induction pre with
    | nil => intro _; simp [joinLoop]
    | cons o rest ih =>
      intro hpre
      rw [List.cons_append, hpre o (by simp)]
      simp only [joinLoop]
      exact ih fun x hx => hpre x (by simp [hx])

theorem joinLoop_propagates_first_panic_witness :
    joinLoop [JoinOutcome.finished, JoinOutcome.panicked] = Except.error () :=
  joinLoop_propagates_first_panic.2 [JoinOutcome.finished] [] (by decide)

/-- C9: if `recv()` ever returns `Err` (permanently empty queue
with the send side gone), the worker treats it as fatal and
unrecoverable: after executing exactly the tasks that preceded the
error, the loop ends abnormally at the error — it does not handle the
error and does not continue with anything that follows. -/
theorem recv_error_fatal_for_worker (tasks : List Nat)
    (rest : List (Except Unit Msg)) :
    runWorkerLoop (tasks.map (fun id => Except.ok (Msg.task id))
        ++ Except.error () :: rest)
      = (tasks, WorkerExit.endedAbnormally) := by
  induction tasks with
  | nil => simp [runWorkerLoop]
  | cons t ts ih => simp [runWorkerLoop, ih]

/-- C8 counterexample: on a pool of size 1 whose handle the caller
still holds, submitting a task that panics, letting the worker dequeue
and run it (the thread unwinds, dropping the last `Arc` clone of the
`Receiver`), and then submitting another task makes the append fail:
`send` returns `Err` — and `execute`'s `unwrap` panics — even though
the Pool handle is alive.  So "the append never fails while any Pool
handle is alive" is false at this concrete input. -/
theorem submit_fails_after_all_workers_panicked :
    (PSys.mk [] [PWorker.idle] []).execute 0 true
        = Except.ok (PSys.mk [PMsg.task 0 true] [PWorker.idle] [])
    ∧ (PSys.mk [PMsg.task 0 true] [PWorker.idle] []).step 0
        = some (PSys.mk [] [PWorker.working (PMsg.task 0 true)] [])
    ∧ (PSys.mk [] [PWorker.working (PMsg.task 0 true)] []).step 0
        = some (PSys.mk [] [PWorker.stoppedPanicked] [])
    ∧ (PSys.mk [] [PWorker.stoppedPanicked] []).execute 1 false
        = Except.error () := by
  refine ⟨rfl, rfl, rfl, rfl⟩

/-- C8 (amended): `send` — and hence `submit` — never blocks (it is
a total function of the current state, with no waiting outcome, the
channel being unbounded), and the append succeeds whenever at least one
worker thread has not ended; before shutdown that is always the case
unless every worker has died to a panicking task, which is the only way
the append can fail — and then `submit`'s `unwrap` panics — while the
Pool handle is still alive. -/
theorem send_succeeds_while_any_worker_lives (s : PSys) (m : PMsg)
    (h : ∃ w ∈ s.workers, w.threadEnded = false) :
    s.send m = Except.ok { s with queue := s.queue ++ [m] } := by
  unfold PSys.send
  have halive : s.receiverAlive = true := by
    obtain ⟨w, hw, he⟩ := h
    unfold PSys.receiverAlive
    rw [List.any_eq_true]
    exact ⟨w, hw, by simp [he]⟩
  rw [halive]
  simp

theorem send_succeeds_while_any_worker_lives_witness :
    (PSys.mk [] [PWorker.idle] []).send (PMsg.task 0 false)
      = Except.ok (PSys.mk [PMsg.task 0 false] [PWorker.idle] []) :=
  send_succeeds_while_any_worker_lives (PSys.mk [] [PWorker.idle] [])
    (PMsg.task 0 false) ⟨PWorker.idle, by decide, by decide⟩
